import Mathlib

/-!
Shallow embedding of src/phylogeny_simulator_and_statistical_verifier.py.

A Case is a pair (origin_generation, error_value); an Individual is a list
of Cases; a Population is a list of Individuals.  Randomness is modelled by
an explicit oracle (`RandomSource`) threaded as state: `randint` models
`random.randint(0, 9999)` and `sample` models `random.sample` by returning
the chosen positions into the sampled sequence (so sampling without
replacement means the positions are distinct).  Python exceptions
(IndexError, ValueError from `random.sample`, failed `assert`) are
modelled by `Option`: `none` is a raised exception.  Python's in-place
`list.sort()` is modelled by returning the post-call state of the argument
list alongside the result.
-/

abbrev Case := Nat × Nat

abbrev Individual := List Case

abbrev Population := List Individual

/-- Oracle for the ambient pseudo-random source (`random` module), threaded
through every call as explicit state of type `σ`. -/
structure RandomSource (σ : Type) where
  randint : σ → Nat × σ
  sample : σ → Nat → Nat → List Nat × σ

/-- Specification of `random.sample(seq, k)` for `k ≤ len(seq)`: the oracle
returns `k` pairwise-distinct positions, each a valid index into the
sequence. -/
def SampleOk {σ : Type} (R : RandomSource σ) : Prop :=
  ∀ s n k, k ≤ n →
    (R.sample s n k).1.length = k ∧ (R.sample s n k).1.Nodup ∧
      ∀ i ∈ (R.sample s n k).1, i < n

/-- Specification of `random.randint(0, 9999)`: the value is at most 9999. -/
def RandintOk {σ : Type} (R : RandomSource σ) : Prop :=
  ∀ s, (R.randint s).1 ≤ 9999

/-- Size of tournaments in tournament selection. -/
def TOURNAMENT_SIZE : Nat := 7

/-- Python `int()` applied to a rational value: truncation toward zero. -/
def pyInt (q : ℚ) : Int :=
  if 0 ≤ q then ⌊q⌋ else ⌈q⌉

/-- Python `max(l)` for a list of naturals: `none` models the exception on
an empty list. -/
def listMax : List Nat → Option Nat
  | [] => none
  | x :: xs => some (xs.foldl Nat.max x)

/-- Python `max(candidates, key=k)`: first element attaining the maximal
key wins ties; `none` models the exception on an empty list. -/
def pyMax (key : Individual → Nat) : List Individual → Option Individual
  | [] => none
  | x :: xs => some (xs.foldl (fun best y => if key best < key y then y else best) x)

/-- Total error of an individual: `sum([case_states[1] for case_states in individual])`. -/
def totalError (individual : Individual) : Nat :=
  (individual.map (fun cs => cs.2)).sum

/-- Embeds `generate_initial_error_vector(num_cases)`. -/
def generate_initial_error_vector {σ : Type} (R : RandomSource σ) :
    Nat → σ → Individual × σ
  | 0, s => ([], s)
  | n + 1, s =>
    let rv := R.randint s
    let rest := generate_initial_error_vector R n rv.2
    ((0, rv.1) :: rest.1, rest.2)

/-- Embeds `generate_initial_population(p, num_cases)`. -/
def generate_initial_population {σ : Type} (R : RandomSource σ) :
    Nat → Nat → σ → Population × σ
  | 0, _, s => ([], s)
  | p + 1, num_cases, s =>
    let ind := generate_initial_error_vector R num_cases s
    let rest := generate_initial_population R p num_cases ind.2
    (ind.1 :: rest.1, rest.2)

/-- Embeds `tournament_selection(population)`: `random.sample` raises when
the population has fewer than `TOURNAMENT_SIZE` members, and the winner is
the candidate maximizing `totalError` (first wins ties, as Python `max`). -/
def tournament_selection {σ : Type} (R : RandomSource σ)
    (population : Population) (s : σ) : Option (Individual × σ) :=
  if TOURNAMENT_SIZE ≤ population.length then
    let sm := R.sample s population.length TOURNAMENT_SIZE
    match pyMax totalError (sm.1.map (fun i => population.getD i [])) with
    | some ind => some (ind, sm.2)
    | none => none
  else none

/-- Embeds `downsample(population, rate)`.  `population[0]` raises on an
empty population; `random.sample(range(n), k)` raises unless `0 ≤ k ≤ n`;
the sampled sequence is `range(n)`, whose element at position `i` is `i`
itself, so the sampled positions are the case ids.  The result is sorted
ascending, as by `list.sort()`. -/
def downsample {σ : Type} (R : RandomSource σ) (population : Population)
    (rate : ℚ) (s : σ) : Option (List Nat × σ) :=
  match population with
  | [] => none
  | ind0 :: _ =>
    let n := ind0.length
    let k := pyInt (rate * (n : ℚ))
    if 0 ≤ k ∧ k.toNat ≤ n then
      let sm := R.sample s n k.toNat
      some (List.insertionSort (· ≤ ·) sm.1, sm.2)
    else none

/-- Embeds `get_new_generation_age(population)`: reads only the first
individual; raises on an empty population or an empty first individual. -/
def get_new_generation_age (population : Population) : Option Nat :=
  match population with
  | [] => none
  | ind0 :: _ =>
    match listMax (ind0.map (fun case_specs => case_specs.1)) with
    | none => none
    | some m => some (m + 1)

/-- Loop of `TOURNAMENT_SIZE`-ary selections:
`[tournament_selection(population) for _ in range(n)]`. -/
def selectLoop {σ : Type} (R : RandomSource σ) (population : Population) :
    Nat → σ → Option (List Individual × σ)
  | 0, s => some ([], s)
  | n + 1, s => do
    let (ind, s₁) ← tournament_selection R population s
    let (rest, s₂) ← selectLoop R population n s₁
    some (ind :: rest, s₂)

/-- Inner loop of `select_and_vary` over the index list `is` (in the source,
`range(len(parent))`): a replaced case consumes one `randint`, an inherited
case copies the parent's pair. -/
def buildChildAux {σ : Type} (R : RandomSource σ) (new_age : Nat)
    (cases_to_replace : List Nat) (parent : Individual) :
    List Nat → σ → Individual × σ
  | [], s => ([], s)
  | i :: is, s =>
    if i ∈ cases_to_replace then
      let rv := R.randint s
      let rest := buildChildAux R new_age cases_to_replace parent is rv.2
      ((new_age, rv.1) :: rest.1, rest.2)
    else
      let rest := buildChildAux R new_age cases_to_replace parent is s
      (parent.getD i (0, 0) :: rest.1, rest.2)

/-- One child: `for case_id in range(len(parent)): ...`. -/
def buildChild {σ : Type} (R : RandomSource σ) (new_age : Nat)
    (cases_to_replace : List Nat) (parent : Individual) (s : σ) :
    Individual × σ :=
  buildChildAux R new_age cases_to_replace parent (List.range parent.length) s

/-- Outer loop of `select_and_vary` over the selected parents. -/
def childrenLoop {σ : Type} (R : RandomSource σ) (new_age : Nat)
    (cases_to_replace : List Nat) : List Individual → σ → Population × σ
  | [], s => ([], s)
  | p :: ps, s =>
    let child := buildChild R new_age cases_to_replace p s
    let rest := childrenLoop R new_age cases_to_replace ps child.2
    (child.1 :: rest.1, rest.2)

/-- Embeds `select_and_vary(population, cases_to_replace)`: first all
tournament selections, then the generation age, then the children. -/
def select_and_vary {σ : Type} (R : RandomSource σ) (population : Population)
    (cases_to_replace : List Nat) (s : σ) : Option (Population × σ) := do
  let (parents, s₁) ← selectLoop R population population.length s
  let new_age ← get_new_generation_age population
  let res := childrenLoop R new_age cases_to_replace parents s₁
  some res

/-- Embeds `simulate_one_generation(population, downsample_rate)`. -/
def simulate_one_generation {σ : Type} (R : RandomSource σ)
    (population : Population) (downsample_rate : ℚ) (s : σ) :
    Option (Population × σ) := do
  let (ctr, s₁) ← downsample R population downsample_rate s
  select_and_vary R population ctr s₁

/-- Loop of `simualte_evolution`: each step extends the history with one
generation computed from the previous last element. -/
def evolutionLoop {σ : Type} (R : RandomSource σ) (downsample_rate : ℚ) :
    Nat → Population → σ → Option (List Population × σ)
  | 0, _, s => some ([], s)
  | n + 1, p, s => do
    let (p₁, s₁) ← simulate_one_generation R p downsample_rate s
    let (rest, s₂) ← evolutionLoop R downsample_rate n p₁ s₁
    some (p₁ :: rest, s₂)

/-- Embeds `simualte_evolution(num_generations, pop_size, num_cases,
downsample_rate)` (name kept as spelled in the source). -/
def simualte_evolution {σ : Type} (R : RandomSource σ)
    (num_generations pop_size num_cases : Nat) (downsample_rate : ℚ)
    (s : σ) : Option (List Population × σ) := do
  let init := generate_initial_population R pop_size num_cases s
  let (rest, s₁) ← evolutionLoop R downsample_rate num_generations init.1 init.2
  some (init.1 :: rest, s₁)

/-- Embeds `cases_from_ancestor(individual, ancestor)`. -/
def cases_from_ancestor (individual : Individual) (ancestor : Nat) :
    List Case :=
  individual.filter (fun case => case.1 == ancestor)

/-- Embeds `cases_from_ancestors(individual, interested_ancestors)`. -/
def cases_from_ancestors (individual : Individual)
    (interested_ancestors : List Nat) : List (List Case) :=
  interested_ancestors.map (cases_from_ancestor individual)

/-- Embeds `percent_cases_from_ancestors_at_specified_generation`.  The
Python function first sorts `interested_ancestors` in place; the returned
second component is the post-call state of that argument list.  Raises on
an out-of-range `target_generation`, an empty target population, or (when
at least one ancestor is given) division by a zero `num_cases`.  Position
`j` of `cases_from_ancestors ind l` is `cases_from_ancestor ind (l.get j)`,
so the per-ancestor pairs are formed by mapping over the sorted list. -/
def percent_cases_from_ancestors_at_specified_generation
    (results : List Population) (target_generation : Nat)
    (interested_ancestors : List Nat) :
    Option (List (List (Nat × ℚ)) × List Nat) :=
  let sortedAnc := List.insertionSort (· ≤ ·) interested_ancestors
  match results.get? target_generation with
  | none => none
  | some targeted_population =>
    match targeted_population with
    | [] => none
    | ind0 :: _ =>
      let num_cases := ind0.length
      if num_cases = 0 ∧ sortedAnc ≠ [] then none
      else
        some (targeted_population.map (fun individual =>
          sortedAnc.map (fun ancestor =>
            (ancestor,
              ((cases_from_ancestor individual ancestor).length : ℚ) /
                (num_cases : ℚ)))), sortedAnc)

/-- Embeds `percent_cases_above_ancestor(results, target_generation,
targeted_ancestors)`.  The ancestor list is
`[i for i in range(targeted_ancestors, target_generation + 1)]`;
`percents[0]` raises when the per-individual list is empty. -/
def percent_cases_above_ancestor (results : List Population)
    (target_generation targeted_ancestors : Nat) : Option ℚ := do
  let interested :=
    List.range' targeted_ancestors (target_generation + 1 - targeted_ancestors)
  let (percents, _) ←
    percent_cases_from_ancestors_at_specified_generation results
      target_generation interested
  let first ← percents.head?
  let columns := (List.range first.length).map (fun ancestor_id =>
    percents.map (fun individual =>
      (individual.getD ancestor_id (0, (0 : ℚ))).2))
  let averages := columns.map (fun col => col.sum / (col.length : ℚ))
  some (1 - averages.sum)

/-- Embeds `phylogeny_threshold_estimation(d, n)`: the `assert(n >= 0)`
models as `none` exactly when `n < 0`. -/
def phylogeny_threshold_estimation (d : ℚ) (n : Int) : Option ℚ :=
  if 0 ≤ n then some (1 - (1 - d) ^ n.toNat) else none

/-- Deterministic oracle used to instantiate theorems on concrete runs:
`randint` always yields 0 and `sample` picks the first `k` positions. -/
def idRandom : RandomSource Unit :=
  { randint := fun s => (0, s)
    sample := fun s _ k => (List.range k, s) }

/-- Maximum origin tag of an individual, `max([c[0] for c in ind])`. -/
def maxTag (individual : Individual) : Option Nat :=
  listMax (individual.map (fun c => c.1))

/-- Invariant carried along a simulation run: at history index `g` (with
`k` the per-generation downsample count), the population is nonempty, all
individuals have `num_cases` cases, all individuals share the same maximum
origin tag (`0` while no case is ever replaced, `g` otherwise), and every
individual has the same number of cases whose tag equals `g`. -/
def MInv (num_cases k g : Nat) (pop : Population) : Prop :=
  pop ≠ [] ∧
  (∀ ind ∈ pop, ind.length = num_cases) ∧
  (∀ ind ∈ pop, maxTag ind = some (if k = 0 then 0 else g)) ∧
  (∀ ind ∈ pop, (cases_from_ancestor ind g).length =
    if g = 0 then num_cases else k)

/-- Value of the degenerate estimator call `percent_cases_above_ancestor(h, 1, 1)`
on a deterministic run with population size 100, 10 cases, one generation
and downsample rate 1/10. -/
def degenerate_call_value_pop100 : Option ℚ :=
  match simualte_evolution idRandom 1 100 10 (1 / 10) () with
  | some pr => percent_cases_above_ancestor pr.1 1 1
  | none => none

/-! ### Basic lemmas about the Python max embeddings -/

theorem foldl_max_le (l : List Nat) (a : Nat) :
    a ≤ l.foldl Nat.max a ∧ ∀ y ∈ l, y ≤ l.foldl Nat.max a := by
  induction l generalizing a with
  | nil => simp
  | cons b t ih =>
    refine ⟨le_trans (Nat.le_max_left a b) (ih (Nat.max a b)).1, ?_⟩
    intro y hy
    rcases List.mem_cons.mp hy with rfl | hy
    · exact le_trans (Nat.le_max_right a y) (ih (Nat.max a y)).1
    · exact (ih (Nat.max a b)).2 y hy

theorem foldl_max_mem (l : List Nat) (a : Nat) :
    l.foldl Nat.max a = a ∨ l.foldl Nat.max a ∈ l := by
  induction l generalizing a with
  | nil => simp
  | cons b t ih =>
    rcases ih (Nat.max a b) with h | h
    · rw [List.foldl_cons, h]
      rcases Nat.le_total a b with hab | hba
      · exact Or.inr (by simp [Nat.max_eq_right hab])
      · exact Or.inl (Nat.max_eq_left hba)
    · exact Or.inr (List.mem_cons_of_mem _ (by rw [List.foldl_cons]; exact h))

theorem listMax_le {l : List Nat} {m : Nat} (h : listMax l = some m) :
    ∀ x ∈ l, x ≤ m := by
  cases l with
  | nil => simp [listMax] at h
  | cons a t =>
    simp only [listMax, Option.some.injEq] at h
    subst h
    intro x hx
    rcases List.mem_cons.mp hx with rfl | hx
    · exact (foldl_max_le t x).1
    · exact (foldl_max_le t a).2 x hx

theorem listMax_mem {l : List Nat} {m : Nat} (h : listMax l = some m) : m ∈ l := by
  cases l with
  | nil => simp [listMax] at h
  | cons a t =>
    simp only [listMax, Option.some.injEq] at h
    subst h
    rcases foldl_max_mem t a with h | h
    · rw [h]; exact List.mem_cons_self a t
    · exact List.mem_cons_of_mem _ h

theorem listMax_eq_some {l : List Nat} {m : Nat} (hm : m ∈ l)
    (hle : ∀ x ∈ l, x ≤ m) : listMax l = some m := by
  cases l with
  | nil => simp at hm
  | cons a t =>
    have hmax : listMax (a :: t) = some (t.foldl Nat.max a) := rfl
    have h₁ := listMax_le hmax
    have h₂ := listMax_mem hmax
    rw [hmax]
    exact congrArg some (Nat.le_antisymm (hle _ h₂) (h₁ m hm))

theorem pyMax_spec {key : Individual → Nat} {l : List Individual}
    {x : Individual} (h : pyMax key l = some x) :
    x ∈ l ∧ ∀ y ∈ l, key y ≤ key x := by
  cases l with
  | nil => simp [pyMax] at h
  | cons a t =>
    simp only [pyMax, Option.some.injEq] at h
    subst h
    suffices hs : ∀ (t : List Individual) (a : Individual),
        (t.foldl (fun best y => if key best < key y then y else best) a = a ∨
          t.foldl (fun best y => if key best < key y then y else best) a ∈ t) ∧
        key a ≤ key (t.foldl (fun best y => if key best < key y then y else best) a) ∧
        ∀ y ∈ t, key y ≤ key (t.foldl (fun best y => if key best < key y then y else best) a) by
      obtain ⟨hmem, hka, hall⟩ := hs t a
      refine ⟨?_, ?_⟩
      · rcases hmem with h | h
        · rw [h]; exact List.mem_cons_self a t
        · exact List.mem_cons_of_mem _ h
      · intro y hy
        rcases List.mem_cons.mp hy with rfl | hy
        · exact hka
        · exact hall y hy
    intro t
    induction t with
    | nil => intro a; simp
    | cons b s ih =>
      intro a
      obtain ⟨ihmem, ihka, ihall⟩ := ih (if key a < key b then b else a)
      have hstep : key a ≤ key (if key a < key b then b else a) ∧
          key b ≤ key (if key a < key b then b else a) := by
        by_cases hab : key a < key b <;> simp [hab] <;> omega
      refine ⟨?_, le_trans hstep.1 ihka, ?_⟩
      · rcases ihmem with h | h
        · rw [List.foldl_cons, h]
          by_cases hab : key a < key b
          · simp [hab]
          · simp [hab]
        · exact Or.inr (List.mem_cons_of_mem _ h)
      · intro y hy
        rcases List.mem_cons.mp hy with rfl | hy
        · exact le_trans hstep.2 ihka
        · exact ihall y hy

theorem pyMax_isSome (key : Individual → Nat) {l : List Individual}
    (h : l ≠ []) : ∃ x, pyMax key l = some x := by
  cases l with
  | nil => exact absurd rfl h
  | cons a t => exact ⟨_, rfl⟩

/-! ### Structural lemmas about child construction and the evolver loops -/

theorem buildChildAux_length {σ : Type} (R : RandomSource σ) (new_age : Nat)
    (ctr : List Nat) (parent : Individual) :
    ∀ (is : List Nat) (s : σ),
      ((buildChildAux R new_age ctr parent is s).1).length = is.length := by
  intro is
  induction is with
  | nil => intro s; rfl
  | cons i t ih =>
    intro s
    by_cases h : i ∈ ctr <;> simp [buildChildAux, h, ih]

theorem buildChildAux_tags {σ : Type} (R : RandomSource σ) (new_age : Nat)
    (ctr : List Nat) (parent : Individual) :
    ∀ (is : List Nat) (s : σ),
      ((buildChildAux R new_age ctr parent is s).1).map (fun c => c.1) =
        is.map (fun i => if i ∈ ctr then new_age else (parent.getD i (0, 0)).1) := by
  intro is
  induction is with
  | nil => intro s; rfl
  | cons i t ih =>
    intro s
    by_cases h : i ∈ ctr <;> simp [buildChildAux, h, ih]

theorem buildChildAux_get? {σ : Type} {R : RandomSource σ}
    (hR : RandintOk R) (new_age : Nat) (ctr : List Nat) (parent : Individual) :
    ∀ (is : List Nat) (s : σ) (j : Nat) (h : j < is.length),
      (is.get ⟨j, h⟩ ∈ ctr → ∃ v, v ≤ 9999 ∧
        ((buildChildAux R new_age ctr parent is s).1).get? j =
          some (new_age, v)) ∧
      (is.get ⟨j, h⟩ ∉ ctr →
        ((buildChildAux R new_age ctr parent is s).1).get? j =
          some (parent.getD (is.get ⟨j, h⟩) (0, 0))) := by
  intro is
  induction is with
  | nil => intro s j h; simp at h
  | cons i t ih =>
    intro s j h
    match j with
    | 0 =>
      by_cases hmem : i ∈ ctr
      · refine ⟨fun _ => ⟨(R.randint s).1, hR s, ?_⟩, fun hn => absurd hmem hn⟩
        simp [buildChildAux, hmem]
      · exact ⟨fun hc => absurd hc hmem, fun _ => by simp [buildChildAux, hmem]⟩
    | j' + 1 =>
      have h' : j' < t.length := Nat.lt_of_succ_lt_succ h
      by_cases hmem : i ∈ ctr
      · simpa [buildChildAux, hmem] using ih (R.randint s).2 j' h'
      · simpa [buildChildAux, hmem] using ih s j' h'

theorem map_getD_range {α : Type} (l : List α) (d : α) :
    (List.range l.length).map (fun i => l.getD i d) = l := by
  induction l with
  | nil => simp
  | cons a t ih =>
    rw [List.length_cons, List.range_succ_eq_map, List.map_cons, List.map_map]
    have he : ((fun i => (a :: t).getD i d) ∘ Nat.succ) = fun i => t.getD i d := by
      funext i
      simp [Function.comp, List.getD_cons_succ]
    rw [List.getD_cons_zero, he, ih]

theorem childrenLoop_length {σ : Type} (R : RandomSource σ) (new_age : Nat)
    (ctr : List Nat) :
    ∀ (parents : List Individual) (s : σ),
      ((childrenLoop R new_age ctr parents s).1).length = parents.length := by
  intro parents
  induction parents with
  | nil => intro s; rfl
  | cons p ps ih => intro s; simp [childrenLoop, ih]

theorem childrenLoop_mem {σ : Type} {R : RandomSource σ} {new_age : Nat}
    {ctr : List Nat} :
    ∀ {parents : List Individual} {s : σ} {c : Individual},
      c ∈ (childrenLoop R new_age ctr parents s).1 →
      ∃ p ∈ parents, ∃ s₀ : σ, c = (buildChild R new_age ctr p s₀).1 := by
  intro parents
  induction parents with
  | nil => intro s c hc; simp [childrenLoop] at hc
  | cons p ps ih =>
    intro s c hc
    rcases List.mem_cons.mp hc with rfl | hc
    · exact ⟨p, List.mem_cons_self p ps, s, rfl⟩
    · obtain ⟨q, hq, s₀, hs₀⟩ := ih hc
      exact ⟨q, List.mem_cons_of_mem _ hq, s₀, hs₀⟩

theorem selectLoop_spec {σ : Type} {R : RandomSource σ}
    {population : Population} :
    ∀ {n : Nat} {s : σ} {out : List Individual × σ},
      selectLoop R population n s = some out →
      out.1.length = n ∧
        ∀ q ∈ out.1, ∃ s₀ s₁ : σ,
          tournament_selection R population s₀ = some (q, s₁) := by
  intro n
  induction n with
  | zero =>
    intro s out h
    simp only [selectLoop, Option.some.injEq] at h
    subst h
    exact ⟨rfl, by simp⟩
  | succ n ih =>
    intro s out h
    simp only [selectLoop] at h
    cases h₁ : tournament_selection R population s with
    | none => rw [h₁] at h; simp at h
    | some pr =>
      rw [h₁] at h
      simp only [Option.bind_eq_bind, Option.some_bind] at h
      cases h₂ : selectLoop R population n pr.2 with
      | none => rw [h₂] at h; simp at h
      | some pr₂ =>
        rw [h₂] at h
        simp only [Option.some_bind, Option.some.injEq] at h
        subst h
        obtain ⟨hlen, hall⟩ := ih h₂
        refine ⟨by simp [hlen], ?_⟩
        intro q hq
        rcases List.mem_cons.mp hq with rfl | hq
        · exact ⟨s, pr.2, h₁⟩
        · exact hall q hq

theorem tournament_selection_eq_some {σ : Type} {R : RandomSource σ}
    {population : Population} {s s₁ : σ} {ind : Individual}
    (h : tournament_selection R population s = some (ind, s₁)) :
    TOURNAMENT_SIZE ≤ population.length ∧
      pyMax totalError
        (((R.sample s population.length TOURNAMENT_SIZE).1).map
          (fun i => population.getD i [])) = some ind ∧
      s₁ = (R.sample s population.length TOURNAMENT_SIZE).2 := by
  by_cases hlen : TOURNAMENT_SIZE ≤ population.length
  · simp only [tournament_selection, if_pos hlen] at h
    cases hmax : pyMax totalError
        (((R.sample s population.length TOURNAMENT_SIZE).1).map
          (fun i => population.getD i [])) with
    | none => rw [hmax] at h; simp at h
    | some w =>
      rw [hmax] at h
      simp only [Option.some.injEq, Prod.mk.injEq] at h
      exact ⟨hlen, by rw [h.1], h.2.symm⟩
  · simp [tournament_selection, if_neg hlen] at h

theorem tournament_selection_mem {σ : Type} {R : RandomSource σ}
    (hS : SampleOk R) {population : Population} {s s₁ : σ} {ind : Individual}
    (h : tournament_selection R population s = some (ind, s₁)) :
    ind ∈ population := by
  obtain ⟨hlen, hmax, -⟩ := tournament_selection_eq_some h
  obtain ⟨hmem, -⟩ := pyMax_spec hmax
  obtain ⟨i, hi, rfl⟩ := List.mem_map.mp hmem
  have hib : i < population.length :=
    (hS s population.length TOURNAMENT_SIZE hlen).2.2 i hi
  rw [List.getD_eq_getElem _ _ hib]
  exact List.getElem_mem hib

theorem select_and_vary_eq_some {σ : Type} {R : RandomSource σ}
    {population : Population} {ctr : List Nat} {s : σ}
    {out : Population × σ}
    (h : select_and_vary R population ctr s = some out) :
    ∃ (parents : List Individual) (s₁ : σ) (new_age : Nat),
      selectLoop R population population.length s = some (parents, s₁) ∧
      get_new_generation_age population = some new_age ∧
      out = childrenLoop R new_age ctr parents s₁ := by
  simp only [select_and_vary] at h
  cases h₁ : selectLoop R population population.length s with
  | none => rw [h₁] at h; simp at h
  | some pr =>
    obtain ⟨parents, sA⟩ := pr
    rw [h₁] at h
    simp only [Option.bind_eq_bind, Option.some_bind] at h
    cases h₂ : get_new_generation_age population with
    | none => rw [h₂] at h; simp at h
    | some age =>
      rw [h₂] at h
      simp only [Option.some_bind, Option.some.injEq] at h
      exact ⟨parents, sA, age, rfl, rfl, h.symm⟩

theorem simulate_one_generation_eq_some {σ : Type} {R : RandomSource σ}
    {population : Population} {rate : ℚ} {s : σ} {out : Population × σ}
    (h : simulate_one_generation R population rate s = some out) :
    ∃ (ctr : List Nat) (s₁ : σ),
      downsample R population rate s = some (ctr, s₁) ∧
      select_and_vary R population ctr s₁ = some out := by
  simp only [simulate_one_generation] at h
  cases h₁ : downsample R population rate s with
  | none => rw [h₁] at h; simp at h
  | some pr =>
    obtain ⟨ctr, sA⟩ := pr
    rw [h₁] at h
    simp only [Option.bind_eq_bind, Option.some_bind] at h
    exact ⟨ctr, sA, rfl, h⟩

theorem evolutionLoop_eq_some_succ {σ : Type} {R : RandomSource σ}
    {rate : ℚ} {n : Nat} {p : Population} {s : σ}
    {out : List Population × σ}
    (h : evolutionLoop R rate (n + 1) p s = some out) :
    ∃ (p₁ : Population) (s₁ : σ) (rest : List Population) (s₂ : σ),
      simulate_one_generation R p rate s = some (p₁, s₁) ∧
      evolutionLoop R rate n p₁ s₁ = some (rest, s₂) ∧
      out = (p₁ :: rest, s₂) := by
  simp only [evolutionLoop] at h
  cases h₁ : simulate_one_generation R p rate s with
  | none => rw [h₁] at h; simp at h
  | some pr =>
    obtain ⟨p₁, sA⟩ := pr
    rw [h₁] at h
    simp only [Option.bind_eq_bind, Option.some_bind] at h
    cases h₂ : evolutionLoop R rate n p₁ sA with
    | none => rw [h₂] at h; simp at h
    | some pr₂ =>
      obtain ⟨rest, sB⟩ := pr₂
      rw [h₂] at h
      simp only [Option.some_bind, Option.some.injEq] at h
      exact ⟨p₁, sA, rest, sB, rfl, h₂, h.symm⟩

theorem simualte_evolution_eq_some {σ : Type} {R : RandomSource σ}
    {num_generations pop_size num_cases : Nat} {rate : ℚ} {s : σ}
    {out : List Population × σ}
    (h : simualte_evolution R num_generations pop_size num_cases rate s =
      some out) :
    ∃ (rest : List Population) (s₁ : σ),
      evolutionLoop R rate num_generations
        (generate_initial_population R pop_size num_cases s).1
        (generate_initial_population R pop_size num_cases s).2 =
        some (rest, s₁) ∧
      out = ((generate_initial_population R pop_size num_cases s).1 :: rest,
        s₁) := by
  simp only [simualte_evolution] at h
  cases h₁ : evolutionLoop R rate num_generations
      (generate_initial_population R pop_size num_cases s).1
      (generate_initial_population R pop_size num_cases s).2 with
  | none => rw [h₁] at h; simp at h
  | some pr =>
    obtain ⟨rest, sA⟩ := pr
    rw [h₁] at h
    simp only [Option.bind_eq_bind, Option.some_bind, Option.some.injEq] at h
    exact ⟨rest, sA, rfl, h.symm⟩

/-! ### Downsampling and initial population -/

theorem downsample_spec {σ : Type} {R : RandomSource σ} (hS : SampleOk R)
    {population : Population} {ind0 : Individual} {tl : List Individual}
    (hpop : population = ind0 :: tl) {rate : ℚ} (h0 : 0 ≤ rate)
    (h1 : rate ≤ 1) (s : σ) :
    ∃ (l : List Nat) (s₁ : σ),
      downsample R population rate s = some (l, s₁) ∧
      l.length = (pyInt (rate * (ind0.length : ℚ))).toNat ∧
      l.Nodup ∧ l.Sorted (· < ·) ∧ ∀ i ∈ l, i < ind0.length := by
  subst hpop
  have hq0 : (0 : ℚ) ≤ rate * (ind0.length : ℚ) :=
    mul_nonneg h0 (Nat.cast_nonneg _)
  have hpy : pyInt (rate * (ind0.length : ℚ)) = ⌊rate * (ind0.length : ℚ)⌋ :=
    if_pos hq0
  have hk0 : 0 ≤ pyInt (rate * (ind0.length : ℚ)) := by
    rw [hpy]
    exact Int.floor_nonneg.mpr hq0
  have hkn : (pyInt (rate * (ind0.length : ℚ))).toNat ≤ ind0.length := by
    rw [hpy]
    have hle : rate * (ind0.length : ℚ) ≤ (ind0.length : ℚ) :=
      mul_le_of_le_one_left (Nat.cast_nonneg _) h1
    have := Int.floor_le_floor hle
    rw [Int.floor_natCast] at this
    exact Int.toNat_le.mpr this
  obtain ⟨hlen, hnd, hbound⟩ :=
    hS s ind0.length (pyInt (rate * (ind0.length : ℚ))).toNat hkn
  refine ⟨List.insertionSort (· ≤ ·)
      (R.sample s ind0.length (pyInt (rate * (ind0.length : ℚ))).toNat).1,
    (R.sample s ind0.length (pyInt (rate * (ind0.length : ℚ))).toNat).2,
    ?_, ?_, ?_, ?_, ?_⟩
  · simp only [downsample]
    rw [if_pos ⟨hk0, hkn⟩]
  · rw [(List.perm_insertionSort (· ≤ ·) _).length_eq]
    exact hlen
  · exact (List.perm_insertionSort (· ≤ ·) _).nodup_iff.mpr hnd
  · exact List.Sorted.lt_of_le (List.sorted_insertionSort (· ≤ ·) _)
      ((List.perm_insertionSort (· ≤ ·) _).nodup_iff.mpr hnd)
  · intro i hi
    exact hbound i ((List.perm_insertionSort (· ≤ ·) _).mem_iff.mp hi)

theorem generate_initial_error_vector_spec {σ : Type} (R : RandomSource σ) :
    ∀ (n : Nat) (s : σ),
      ((generate_initial_error_vector R n s).1).length = n ∧
      ∀ c ∈ (generate_initial_error_vector R n s).1, c.1 = 0 := by
  intro n
  induction n with
  | zero => intro s; exact ⟨rfl, by simp [generate_initial_error_vector]⟩
  | succ n ih =>
    intro s
    refine ⟨by simp [generate_initial_error_vector, (ih (R.randint s).2).1], ?_⟩
    intro c hc
    simp only [generate_initial_error_vector, List.mem_cons] at hc
    rcases hc with rfl | hc
    · rfl
    · exact (ih (R.randint s).2).2 c hc

theorem generate_initial_population_spec {σ : Type} (R : RandomSource σ) :
    ∀ (p num_cases : Nat) (s : σ),
      ((generate_initial_population R p num_cases s).1).length = p ∧
      ∀ ind ∈ (generate_initial_population R p num_cases s).1,
        ind.length = num_cases ∧ ∀ c ∈ ind, c.1 = 0 := by
  intro p
  induction p with
  | zero =>
    intro num_cases s
    exact ⟨rfl, by simp [generate_initial_population]⟩
  | succ p ih =>
    intro num_cases s
    refine ⟨by
      simp [generate_initial_population,
        (ih num_cases (generate_initial_error_vector R num_cases s).2).1], ?_⟩
    intro ind hind
    simp only [generate_initial_population, List.mem_cons] at hind
    rcases hind with rfl | hind
    · exact ⟨(generate_initial_error_vector_spec R num_cases s).1,
        (generate_initial_error_vector_spec R num_cases s).2⟩
    · exact (ih num_cases (generate_initial_error_vector R num_cases s).2).2
        ind hind

/-! ### Origin-tag bookkeeping for one child and one generation -/

theorem get_new_generation_age_cons {ind0 : Individual}
    {tl : List Individual} {m : Nat} (h : maxTag ind0 = some m) :
    get_new_generation_age (ind0 :: tl) = some (m + 1) := by
  simp only [get_new_generation_age]
  rw [show (ind0.map (fun case_specs => case_specs.1)) =
      (ind0.map (fun c => c.1)) from rfl]
  rw [show listMax (ind0.map (fun c => c.1)) = maxTag ind0 from rfl, h]

theorem buildChild_length {σ : Type} (R : RandomSource σ) (new_age : Nat)
    (ctr : List Nat) (parent : Individual) (s : σ) :
    ((buildChild R new_age ctr parent s).1).length = parent.length := by
  rw [buildChild, buildChildAux_length, List.length_range]

theorem buildChild_tags {σ : Type} (R : RandomSource σ) (new_age : Nat)
    (ctr : List Nat) (parent : Individual) (s : σ) :
    ((buildChild R new_age ctr parent s).1).map (fun c => c.1) =
      (List.range parent.length).map
        (fun i => if i ∈ ctr then new_age else (parent.getD i (0, 0)).1) := by
  rw [buildChild, buildChildAux_tags]

theorem buildChildAux_of_disjoint {σ : Type} (R : RandomSource σ)
    (new_age : Nat) (ctr : List Nat) (parent : Individual) :
    ∀ (is : List Nat) (s : σ), (∀ i ∈ is, i ∉ ctr) →
      (buildChildAux R new_age ctr parent is s).1 =
        is.map (fun i => parent.getD i (0, 0)) := by
  intro is
  induction is with
  | nil => intro s _; rfl
  | cons i t ih =>
    intro s hdis
    have hi : i ∉ ctr := hdis i (List.mem_cons_self i t)
    simp [buildChildAux, hi,
      ih s (fun j hj => hdis j (List.mem_cons_of_mem _ hj))]

theorem buildChild_of_empty_ctr {σ : Type} (R : RandomSource σ)
    (new_age : Nat) (parent : Individual) (s : σ) :
    (buildChild R new_age [] parent s).1 = parent := by
  rw [buildChild, buildChildAux_of_disjoint R new_age [] parent _ s
    (by simp), map_getD_range]

theorem mem_le_of_maxTag {parent : Individual} {m : Nat}
    (h : maxTag parent = some m) : ∀ c ∈ parent, c.1 ≤ m := by
  intro c hc
  exact listMax_le h c.1 (List.mem_map.mpr ⟨c, hc, rfl⟩)

theorem maxTag_buildChild_of_replaced {σ : Type} {R : RandomSource σ}
    {ctr : List Nat} {parent : Individual} {m : Nat} (s : σ)
    (hhit : ∃ i ∈ ctr, i < parent.length)
    (hpar : maxTag parent = some m) :
    maxTag (buildChild R (m + 1) ctr parent s).1 = some (m + 1) := by
  obtain ⟨i₀, hi₀ctr, hi₀len⟩ := hhit
  apply listMax_eq_some
  · rw [buildChild_tags]
    refine List.mem_map.mpr ⟨i₀, List.mem_range.mpr hi₀len, ?_⟩
    rw [if_pos hi₀ctr]
  · intro x hx
    rw [buildChild_tags] at hx
    obtain ⟨i, hi, hxi⟩ := List.mem_map.mp hx
    by_cases hmem : i ∈ ctr
    · rw [if_pos hmem] at hxi
      omega
    · rw [if_neg hmem] at hxi
      have hilen : i < parent.length := List.mem_range.mp hi
      have : (parent.getD i (0, 0)).1 ≤ m := by
        rw [List.getD_eq_getElem _ _ hilen]
        exact mem_le_of_maxTag hpar _ (List.getElem_mem hilen)
      omega

theorem count_tag_buildChild {σ : Type} {R : RandomSource σ}
    {ctr : List Nat} {parent : Individual} {m : Nat} (s : σ)
    (hnd : ctr.Nodup) (hsub : ∀ i ∈ ctr, i < parent.length)
    (hpar : ∀ c ∈ parent, c.1 ≤ m) :
    (((buildChild R (m + 1) ctr parent s).1).filter
      (fun c => c.1 == m + 1)).length = ctr.length := by
  have hmapfilter :
      (((buildChild R (m + 1) ctr parent s).1).filter
        (fun c => c.1 == m + 1)).length =
      ((((buildChild R (m + 1) ctr parent s).1).map (fun c => c.1)).filter
        (fun t => t == m + 1)).length := by
    rw [List.filter_map, List.length_map]; rfl
  rw [hmapfilter, buildChild_tags, List.filter_map]
  rw [List.length_map]
  have hcong : (List.range parent.length).filter
      ((fun t => t == m + 1) ∘
        (fun i => if i ∈ ctr then m + 1 else (parent.getD i (0, 0)).1)) =
      (List.range parent.length).filter (fun i => decide (i ∈ ctr)) := by
    apply List.filter_congr
    intro i hi
    have hilen : i < parent.length := List.mem_range.mp hi
    by_cases hmem : i ∈ ctr
    · simp [Function.comp, hmem]
    · have : (parent.getD i (0, 0)).1 ≤ m := by
        rw [List.getD_eq_getElem _ _ hilen]
        exact hpar _ (List.getElem_mem hilen)
      simp only [Function.comp, hmem, decide_False, if_false,
        beq_eq_false_iff_ne, ne_eq]
      omega
  rw [hcong]
  have hperm : List.Perm ((List.range parent.length).filter
      (fun i => decide (i ∈ ctr))) ctr := by
    rw [List.perm_ext_iff_of_nodup
      (List.Nodup.filter _ (List.nodup_range _)) hnd]
    intro a
    simp only [List.mem_filter, List.mem_range, decide_eq_true_eq]
    exact ⟨fun h => h.2, fun h => ⟨hsub a h, h⟩⟩
  exact hperm.length_eq

/-! ### The per-generation invariant -/

theorem step_MInv {σ : Type} {R : RandomSource σ} (hS : SampleOk R)
    {rate : ℚ} (h0 : 0 ≤ rate) (h1 : rate ≤ 1) {num_cases g : Nat}
    {pop pop' : Population} {s s' : σ}
    (hInv : MInv num_cases (pyInt (rate * (num_cases : ℚ))).toNat g pop)
    (hsim : simulate_one_generation R pop rate s = some (pop', s')) :
    MInv num_cases (pyInt (rate * (num_cases : ℚ))).toNat (g + 1) pop' := by
  obtain ⟨hne, hlen, hmax, hcnt⟩ := hInv
  obtain ⟨ctr, s₁, hdown, hsv⟩ := simulate_one_generation_eq_some hsim
  cases pop with
  | nil => exact absurd rfl hne
  | cons ind0 tl =>
  have hind0len : ind0.length = num_cases :=
    hlen ind0 (List.mem_cons_self _ _)
  obtain ⟨l, s₁', hdown', hllen, hlnd, hlsorted, hlbound⟩ :=
    downsample_spec hS rfl h0 h1 s
  rw [hdown] at hdown'
  obtain ⟨rfl, rfl⟩ : ctr = l ∧ s₁ = s₁' := by
    have hpair := Option.some.inj hdown'
    exact ⟨congrArg Prod.fst hpair, congrArg Prod.snd hpair⟩
  rw [hind0len] at hllen hlbound
  obtain ⟨parents, s₂, age, hsel, hage, hout⟩ := select_and_vary_eq_some hsv
  set k := (pyInt (rate * (num_cases : ℚ))).toNat with hk
  set m := if k = 0 then 0 else g with hm
  have hmaxind0 : maxTag ind0 = some m := hmax ind0 (List.mem_cons_self _ _)
  have hage' : age = m + 1 := by
    rw [get_new_generation_age_cons hmaxind0] at hage
    exact (Option.some.inj hage).symm
  obtain ⟨hparlen, hparsel⟩ := selectLoop_spec hsel
  have hparents_mem : ∀ q ∈ parents, q ∈ ind0 :: tl := by
    intro q hq
    obtain ⟨s₀, s₃, ht⟩ := hparsel q hq
    exact tournament_selection_mem hS ht
  have hpop' : pop' = (childrenLoop R age ctr parents s₂).1 :=
    congrArg Prod.fst hout
  have hchild : ∀ ind ∈ pop', ∃ p ∈ ind0 :: tl, ∃ s₀ : σ,
      ind = (buildChild R age ctr p s₀).1 := by
    intro ind hind
    rw [hpop'] at hind
    obtain ⟨p, hp, s₀, hcb⟩ := childrenLoop_mem hind
    exact ⟨p, hparents_mem p hp, s₀, hcb⟩
  refine ⟨?_, ?_, ?_, ?_⟩
  · rw [hpop']
    have : ((childrenLoop R age ctr parents s₂).1).length =
        (ind0 :: tl).length := by rw [childrenLoop_length, hparlen]
    intro hcon
    rw [hcon] at this
    simp at this
  · intro ind hind
    obtain ⟨p, hp, s₀, rfl⟩ := hchild ind hind
    rw [buildChild_length]
    exact hlen p hp
  · intro ind hind
    obtain ⟨p, hp, s₀, rfl⟩ := hchild ind hind
    by_cases hk0 : k = 0
    · have hctrnil : ctr = [] := List.length_eq_zero.mp (by rw [hllen, hk0])
      rw [hctrnil, buildChild_of_empty_ctr]
      rw [hmax p hp]
      simp [hm, hk0]
    · have hm_eq : m = g := by rw [hm, if_neg hk0]
      have hctr_ne : ctr ≠ [] := by
        intro hcon
        rw [hcon] at hllen
        exact hk0 (by simpa using hllen.symm)
      obtain ⟨i₀, hi₀⟩ := List.exists_mem_of_ne_nil ctr hctr_ne
      have hhit : ∃ i ∈ ctr, i < p.length := by
        refine ⟨i₀, hi₀, ?_⟩
        rw [hlen p hp]
        exact hlbound i₀ hi₀
      have hmp : maxTag p = some g := by rw [hmax p hp, ← hm_eq]
      rw [hage', hm_eq]
      rw [maxTag_buildChild_of_replaced s₀ hhit hmp]
      simp [hk0]
  · intro ind hind
    obtain ⟨p, hp, s₀, rfl⟩ := hchild ind hind
    rw [if_neg (Nat.succ_ne_zero g)]
    by_cases hk0 : k = 0
    · have hctrnil : ctr = [] := List.length_eq_zero.mp (by rw [hllen, hk0])
      rw [hctrnil, buildChild_of_empty_ctr, hk0]
      have hple : ∀ c ∈ p, c.1 ≤ m := mem_le_of_maxTag (hmax p hp)
      have hm0 : m = 0 := by rw [hm, if_pos hk0]
      rw [cases_from_ancestor]
      have : p.filter (fun case => case.1 == g + 1) = [] := by
        apply List.filter_eq_nil_iff.mpr
        intro c hc
        have := hple c hc
        rw [hm0] at this
        simp only [beq_iff_eq]
        omega
      rw [this]
      rfl
    · have hm_eq : m = g := by rw [hm, if_neg hk0]
      have hmp : ∀ c ∈ p, c.1 ≤ g := by
        have := mem_le_of_maxTag (hmax p hp)
        rw [hm_eq] at this
        exact this
      have hsub : ∀ i ∈ ctr, i < p.length := by
        intro i hi
        rw [hlen p hp]
        exact hlbound i hi
      rw [cases_from_ancestor, hage', hm_eq]
      rw [count_tag_buildChild s₀ hlnd hsub hmp, hllen]

theorem evolutionLoop_length {σ : Type} {R : RandomSource σ} {rate : ℚ} :
    ∀ {n : Nat} {p : Population} {s : σ} {rest : List Population} {s₂ : σ},
      evolutionLoop R rate n p s = some (rest, s₂) → rest.length = n := by
  intro n
  induction n with
  | zero =>
    intro p s rest s₂ h
    simp only [evolutionLoop, Option.some.injEq] at h
    have hre : rest = [] := (congrArg Prod.fst h).symm
    rw [hre]
    rfl
  | succ n ih =>
    intro p s rest s₂ h
    obtain ⟨p₁, sA, rest', sB, hstep, hloop, hout⟩ :=
      evolutionLoop_eq_some_succ h
    have : rest = p₁ :: rest' := congrArg Prod.fst hout
    rw [this, List.length_cons, ih hloop]

theorem evolutionLoop_MInv {σ : Type} {R : RandomSource σ} (hS : SampleOk R)
    {rate : ℚ} (h0 : 0 ≤ rate) (h1 : rate ≤ 1) {num_cases : Nat} :
    ∀ {n g : Nat} {p : Population} {s : σ} {rest : List Population} {s₂ : σ},
      MInv num_cases (pyInt (rate * (num_cases : ℚ))).toNat g p →
      evolutionLoop R rate n p s = some (rest, s₂) →
      ∀ j (hj : j < rest.length),
        MInv num_cases (pyInt (rate * (num_cases : ℚ))).toNat (g + 1 + j)
          (rest.get ⟨j, hj⟩) := by
  intro n
  induction n with
  | zero =>
    intro g p s rest s₂ hInv h j hj
    simp only [evolutionLoop, Option.some.injEq] at h
    have : rest = [] := (congrArg Prod.fst h).symm
    subst this
    simp at hj
  | succ n ih =>
    intro g p s rest s₂ hInv h j hj
    obtain ⟨p₁, sA, rest', sB, hstep, hloop, hout⟩ :=
      evolutionLoop_eq_some_succ h
    obtain ⟨rfl, rfl⟩ : rest = p₁ :: rest' ∧ s₂ = sB :=
      ⟨congrArg Prod.fst hout, congrArg Prod.snd hout⟩
    have hInv₁ := step_MInv hS h0 h1 hInv hstep
    match j with
    | 0 => simpa using hInv₁
    | j + 1 =>
      have hj' : j < rest'.length := by simpa using hj
      have hres := ih hInv₁ hloop j hj'
      have harith : g + 1 + 1 + j = g + 1 + (j + 1) := by omega
      rw [harith] at hres
      simpa using hres

theorem MInv_initial {σ : Type} (R : RandomSource σ)
    {pop_size num_cases : Nat} (hps : 1 ≤ pop_size) (hnc : 1 ≤ num_cases)
    (k : Nat) (s : σ) :
    MInv num_cases k 0 (generate_initial_population R pop_size num_cases s).1 := by
  obtain ⟨hlen, hall⟩ := generate_initial_population_spec R pop_size num_cases s
  refine ⟨?_, fun ind h => (hall ind h).1, ?_, ?_⟩
  · intro hcon
    rw [hcon] at hlen
    simp at hlen
    omega
  · intro ind hind
    obtain ⟨hilen, htags⟩ := hall ind hind
    have hne : ind ≠ [] := by
      intro hcon
      rw [hcon] at hilen
      simp at hilen
      omega
    have h0mem : (0 : Nat) ∈ ind.map (fun c => c.1) := by
      obtain ⟨c, hc⟩ := List.exists_mem_of_ne_nil ind hne
      exact List.mem_map.mpr ⟨c, hc, htags c hc⟩
    have hall0 : ∀ x ∈ ind.map (fun c => c.1), x ≤ 0 := by
      intro x hx
      obtain ⟨c, hc, rfl⟩ := List.mem_map.mp hx
      rw [htags c hc]
    rw [maxTag, listMax_eq_some h0mem hall0]
    simp
  · intro ind hind
    obtain ⟨hilen, htags⟩ := hall ind hind
    rw [if_pos rfl, cases_from_ancestor]
    have hfl : ind.filter (fun case => case.1 == 0) = ind := by
      apply List.filter_eq_self.mpr
      intro c hc
      simp [htags c hc]
    rw [hfl, hilen]

theorem simualte_evolution_MInv {σ : Type} {R : RandomSource σ}
    (hS : SampleOk R) {rate : ℚ} (h0 : 0 ≤ rate) (h1 : rate ≤ 1)
    {num_generations pop_size num_cases : Nat}
    (hps : 1 ≤ pop_size) (hnc : 1 ≤ num_cases) {s : σ}
    {hist : List Population} {sf : σ}
    (hrun : simualte_evolution R num_generations pop_size num_cases rate s =
      some (hist, sf)) :
    hist.length = num_generations + 1 ∧
    ∀ g (hg : g < hist.length),
      MInv num_cases (pyInt (rate * (num_cases : ℚ))).toNat g
        (hist.get ⟨g, hg⟩) := by
  obtain ⟨rest, sA, hloop, hout⟩ := simualte_evolution_eq_some hrun
  obtain ⟨rfl, rfl⟩ : hist =
      (generate_initial_population R pop_size num_cases s).1 :: rest ∧
      sf = sA :=
    ⟨congrArg Prod.fst hout, congrArg Prod.snd hout⟩
  have hrl : rest.length = num_generations := evolutionLoop_length hloop
  refine ⟨by simp [hrl], ?_⟩
  intro g hg
  match g with
  | 0 => simpa using MInv_initial R hps hnc _ s
  | g + 1 =>
    have hg' : g < rest.length := by simpa using hg
    have hres := evolutionLoop_MInv hS h0 h1
      (MInv_initial R hps hnc _ s) hloop g hg'
    have harith : 0 + 1 + g = g + 1 := by omega
    rw [harith] at hres
    simpa using hres

/-! ### Facts about the deterministic oracle and small evaluation lemmas -/

theorem idRandom_sampleOk : SampleOk idRandom := by
  intro s n k hk
  refine ⟨List.length_range k, List.nodup_range k, ?_⟩
  intro i hi
  exact Nat.lt_of_lt_of_le (List.mem_range.mp hi) hk

theorem idRandom_randintOk : RandintOk idRandom := by
  intro s
  exact Nat.zero_le _

theorem sum_map_const_rat {α : Type} (l : List α) (c : ℚ) :
    (l.map (fun _ => c)).sum = (l.length : ℚ) * c := by
  induction l with
  | nil => simp
  | cons a t ih =>
    simp only [List.map_cons, List.sum_cons, ih, List.length_cons]
    push_cast
    ring

theorem evolutionLoop_chain {σ : Type} {R : RandomSource σ} {rate : ℚ} :
    ∀ {n : Nat} {p : Population} {s : σ} {rest : List Population} {s₂ : σ},
      evolutionLoop R rate n p s = some (rest, s₂) →
      ∀ i, i < n →
        ∃ (a b : Population) (u v : σ),
          (p :: rest).get? i = some a ∧
          (p :: rest).get? (i + 1) = some b ∧
          simulate_one_generation R a rate u = some (b, v) := by
  intro n
  induction n with
  | zero => intro p s rest s₂ h i hi; omega
  | succ n ih =>
    intro p s rest s₂ h i hi
    obtain ⟨p₁, sA, rest', sB, hstep, hloop, hout⟩ :=
      evolutionLoop_eq_some_succ h
    obtain ⟨rfl, rfl⟩ : rest = p₁ :: rest' ∧ s₂ = sB :=
      ⟨congrArg Prod.fst hout, congrArg Prod.snd hout⟩
    match i with
    | 0 => exact ⟨p, p₁, s, sA, rfl, rfl, hstep⟩
    | i + 1 =>
      obtain ⟨a, b, u, v, ha, hb, hab⟩ := ih hloop i (by omega)
      exact ⟨a, b, u, v, ha, hb, hab⟩

/-! ### Claim theorems -/

/-- C1: for every history returned by `simualte_evolution(num_generations,
pop_size, num_cases, downsample_rate)` with `num_generations ≥ 0`,
`pop_size ≥ 7`, `num_cases ≥ 1` and `downsample_rate ∈ [0, 1]`, and for
every generation index `g` and every Individual in `history[g]`: the
Individual has length `num_cases`, and every Case's origin generation lies
in `[0, g]` (the lower bound is automatic for naturals). -/
theorem C1_history_shape_and_origin_bounds {σ : Type} {R : RandomSource σ}
    (hS : SampleOk R) {num_generations pop_size num_cases : Nat} {rate : ℚ}
    (hng : 0 ≤ num_generations) (hps : 7 ≤ pop_size) (hnc : 1 ≤ num_cases)
    (h0 : 0 ≤ rate) (h1 : rate ≤ 1) {s : σ} {hist : List Population}
    {sf : σ}
    (hrun : simualte_evolution R num_generations pop_size num_cases rate s =
      some (hist, sf)) :
    ∀ g (hg : g < hist.length), ∀ ind ∈ hist.get ⟨g, hg⟩,
      ind.length = num_cases ∧ ∀ c ∈ ind, c.1 ≤ g := by
  obtain ⟨-, hMinv⟩ :=
    simualte_evolution_MInv hS h0 h1 (by omega) hnc hrun
  intro g hg ind hind
  obtain ⟨hne, hlen, hmax, hcnt⟩ := hMinv g hg
  refine ⟨hlen ind hind, ?_⟩
  intro c hc
  have htag := mem_le_of_maxTag (hmax ind hind) c hc
  by_cases hk : (pyInt (rate * (num_cases : ℚ))).toNat = 0 <;>
    simp [hk] at htag <;> omega

/-- Witness for C1: the concrete deterministic run
`simualte_evolution(1, 7, 1, 1)` at generation 1. -/
theorem C1_history_shape_and_origin_bounds_witness :
    ([((1 : Nat), (0 : Nat))] : Individual).length = 1 ∧
      ∀ c ∈ ([((1 : Nat), (0 : Nat))] : Individual), c.1 ≤ 1 :=
  C1_history_shape_and_origin_bounds idRandom_sampleOk (Nat.zero_le 1)
    (le_refl 7) (le_refl 1) (by norm_num) (le_refl 1)
    (show simualte_evolution idRandom 1 7 1 1 () =
      some ([List.replicate 7 [(0, 0)], List.replicate 7 [(1, 0)]], ())
      by decide!)
    1 (by decide) [(1, 0)] (by decide)

/-- C6: every population reachable in a simulator history has all its
Individuals sharing the same maximum origin tag `m` (so `m` is also the
maximum origin tag of the whole population), and the new generation age
that `select_and_vary` would use on that population — computed by
`get_new_generation_age` from the first Individual only — equals `m + 1`. -/
theorem C6_lockstep_max_tag_and_generation_age {σ : Type}
    {R : RandomSource σ} (hS : SampleOk R)
    {num_generations pop_size num_cases : Nat} {rate : ℚ}
    (hps : 7 ≤ pop_size) (hnc : 1 ≤ num_cases)
    (h0 : 0 ≤ rate) (h1 : rate ≤ 1) {s : σ} {hist : List Population}
    {sf : σ}
    (hrun : simualte_evolution R num_generations pop_size num_cases rate s =
      some (hist, sf)) :
    ∀ g (hg : g < hist.length), ∃ m : Nat,
      (∀ ind ∈ hist.get ⟨g, hg⟩, maxTag ind = some m) ∧
      (∀ ind ∈ hist.get ⟨g, hg⟩, ∀ c ∈ ind, c.1 ≤ m) ∧
      get_new_generation_age (hist.get ⟨g, hg⟩) = some (m + 1) := by
  obtain ⟨-, hMinv⟩ :=
    simualte_evolution_MInv hS h0 h1 (by omega) hnc hrun
  intro g hg
  obtain ⟨hne, hlen, hmax, hcnt⟩ := hMinv g hg
  refine ⟨if (pyInt (rate * (num_cases : ℚ))).toNat = 0 then 0 else g,
    hmax, ?_, ?_⟩
  · intro ind hind c hc
    exact mem_le_of_maxTag (hmax ind hind) c hc
  · cases hq : hist.get ⟨g, hg⟩ with
    | nil => exact absurd hq hne
    | cons i0 tl =>
      have h0max : maxTag i0 =
          some (if (pyInt (rate * (num_cases : ℚ))).toNat = 0 then 0 else g) :=
        hmax i0 (by rw [hq]; exact List.mem_cons_self i0 tl)
      exact get_new_generation_age_cons h0max

/-- Witness for C6: the concrete deterministic run
`simualte_evolution(1, 7, 1, 1)` at generation 1. -/
theorem C6_lockstep_max_tag_and_generation_age_witness :
    ∃ m : Nat,
      (∀ ind ∈ ([List.replicate 7 [(0, 0)], List.replicate 7 [(1, 0)]] :
          List Population).get ⟨1, by decide⟩, maxTag ind = some m) ∧
      (∀ ind ∈ ([List.replicate 7 [(0, 0)], List.replicate 7 [(1, 0)]] :
          List Population).get ⟨1, by decide⟩, ∀ c ∈ ind, c.1 ≤ m) ∧
      get_new_generation_age
        (([List.replicate 7 [(0, 0)], List.replicate 7 [(1, 0)]] :
          List Population).get ⟨1, by decide⟩) = some (m + 1) :=
  C6_lockstep_max_tag_and_generation_age idRandom_sampleOk
    (le_refl 7) (le_refl 1) (by norm_num) (le_refl 1)
    (show simualte_evolution idRandom 1 7 1 1 () =
      some ([List.replicate 7 [(0, 0)], List.replicate 7 [(1, 0)]], ())
      by decide!)
    1 (by decide)

/-- C8: `tournament_selection` fails (raises in `random.sample`, modelled
as `none`, so no partial result is produced) whenever the population has
fewer than `TOURNAMENT_SIZE = 7` Individuals. -/
theorem C8_tournament_selection_small_population_fails {σ : Type}
    (R : RandomSource σ) (population : Population) (s : σ)
    (h : population.length < TOURNAMENT_SIZE) :
    tournament_selection R population s = none := by
  rw [tournament_selection, if_neg (Nat.not_le.mpr h)]

/-- Witness for C8: a two-individual population. -/
theorem C8_tournament_selection_small_population_fails_witness :
    tournament_selection idRandom [[(0, 1)], [(0, 2)]] () = none :=
  C8_tournament_selection_small_population_fails idRandom
    [[(0, 1)], [(0, 2)]] () (by decide)

/-- Counterexample to C9: the boundary call
`phylogeny_threshold_estimation(0.1, 0)` does not fail; the assert `n ≥ 0`
passes and the call returns `0.0`. -/
theorem C9_boundary_call_counterexample :
    phylogeny_threshold_estimation (1 / 10) 0 = some 0 := by decide!

/-- C9 amended: `phylogeny_threshold_estimation(d, n)` requires `n ≥ 0`
and fails exactly when `n < 0`; the boundary call with `n = 0` succeeds
and returns `0`. -/
theorem C9_nonneg_guard_boundary_succeeds (d : ℚ) (n : Int) :
    (0 ≤ n → ∃ v : ℚ, phylogeny_threshold_estimation d n = some v) ∧
    (n < 0 → phylogeny_threshold_estimation d n = none) ∧
    phylogeny_threshold_estimation d 0 = some 0 := by
  refine ⟨fun h => ⟨1 - (1 - d) ^ n.toNat, ?_⟩, fun h => ?_, ?_⟩
  · rw [phylogeny_threshold_estimation, if_pos h]
  · rw [phylogeny_threshold_estimation, if_neg (Int.not_le.mpr h)]
  · rw [phylogeny_threshold_estimation, if_pos (le_refl 0)]
    norm_num

/-- Witness for the amended C9 at `d = 1/10`, `n = 2` and `n = -1`. -/
theorem C9_nonneg_guard_boundary_succeeds_witness :
    (∃ v : ℚ, phylogeny_threshold_estimation (1 / 10) 2 = some v) ∧
    phylogeny_threshold_estimation (1 / 10) (-1) = none ∧
    phylogeny_threshold_estimation (1 / 10) 0 = some 0 :=
  ⟨(C9_nonneg_guard_boundary_succeeds (1 / 10) 2).1 (by decide),
    (C9_nonneg_guard_boundary_succeeds (1 / 10) (-1)).2.1 (by decide),
    (C9_nonneg_guard_boundary_succeeds (1 / 10) 0).2.2⟩

/-- C3: for every nonempty population whose individuals have `num_cases`
cases and every rate in `[0, 1]`, `downsample` succeeds and returns exactly
`floor(rate * num_cases)` case indices, pairwise distinct, strictly
ascending, and each in `[0, num_cases)`. -/
theorem C3_downsample_count_distinct_sorted_bounded {σ : Type}
    {R : RandomSource σ} (hS : SampleOk R) {population : Population}
    {num_cases : Nat} (hne : population ≠ [])
    (hlen : ∀ ind ∈ population, ind.length = num_cases) {rate : ℚ}
    (h0 : 0 ≤ rate) (h1 : rate ≤ 1) (s : σ) :
    ∃ (l : List Nat) (s₁ : σ),
      downsample R population rate s = some (l, s₁) ∧
      l.length = (⌊rate * (num_cases : ℚ)⌋).toNat ∧
      l.Nodup ∧ l.Sorted (· < ·) ∧ ∀ i ∈ l, i < num_cases := by
  cases population with
  | nil => exact absurd rfl hne
  | cons ind0 tl =>
    have h0len : ind0.length = num_cases :=
      hlen ind0 (List.mem_cons_self _ _)
    obtain ⟨l, s₁, hd, hl, hnd, hsort, hb⟩ := downsample_spec hS rfl h0 h1 s
    rw [h0len] at hl hb
    refine ⟨l, s₁, hd, ?_, hnd, hsort, hb⟩
    rw [hl, pyInt, if_pos (mul_nonneg h0 (Nat.cast_nonneg _))]

/-- Witness for C3: a one-individual population with three cases at rate
one half; the call returns a single index. -/
theorem C3_downsample_count_distinct_sorted_bounded_witness :
    ∃ (l : List Nat) (s₁ : Unit),
      downsample idRandom [[(0, 1), (0, 2), (0, 3)]] (1 / 2) () =
        some (l, s₁) ∧
      l.length = (⌊(1 / 2 : ℚ) * ((3 : Nat) : ℚ)⌋).toNat ∧
      l.Nodup ∧ l.Sorted (· < ·) ∧ ∀ i ∈ l, i < 3 :=
  C3_downsample_count_distinct_sorted_bounded idRandom_sampleOk
    (by decide) (by decide) (by norm_num) (by norm_num) ()

/-- C4: with at least 7 individuals, `tournament_selection` draws 7
distinct positions of the population, each candidate drawn is a member of
the population, the returned individual is one of the drawn candidates,
and its summed error value is maximal among those candidates. -/
theorem C4_tournament_selection_max_of_sample {σ : Type}
    {R : RandomSource σ} (hS : SampleOk R) {population : Population}
    (hlen : TOURNAMENT_SIZE ≤ population.length) (s : σ) :
    ((R.sample s population.length TOURNAMENT_SIZE).1).length =
      TOURNAMENT_SIZE ∧
    ((R.sample s population.length TOURNAMENT_SIZE).1).Nodup ∧
    (∀ i ∈ (R.sample s population.length TOURNAMENT_SIZE).1,
      i < population.length) ∧
    ∃ ind : Individual,
      tournament_selection R population s =
        some (ind, (R.sample s population.length TOURNAMENT_SIZE).2) ∧
      ind ∈ ((R.sample s population.length TOURNAMENT_SIZE).1).map
        (fun i => population.getD i []) ∧
      (∀ cand ∈ ((R.sample s population.length TOURNAMENT_SIZE).1).map
        (fun i => population.getD i []), cand ∈ population) ∧
      ∀ cand ∈ ((R.sample s population.length TOURNAMENT_SIZE).1).map
        (fun i => population.getD i []),
        totalError cand ≤ totalError ind := by
  obtain ⟨hslen, hsnd, hsb⟩ := hS s population.length TOURNAMENT_SIZE hlen
  refine ⟨hslen, hsnd, hsb, ?_⟩
  have hcne : ((R.sample s population.length TOURNAMENT_SIZE).1).map
      (fun i => population.getD i []) ≠ [] := by
    intro hcon
    have hlc := congrArg List.length hcon
    rw [List.length_map, hslen] at hlc
    simp [TOURNAMENT_SIZE] at hlc
  obtain ⟨w, hw⟩ := pyMax_isSome totalError hcne
  obtain ⟨hwmem, hwmax⟩ := pyMax_spec hw
  refine ⟨w, ?_, hwmem, ?_, hwmax⟩
  · simp only [tournament_selection, if_pos hlen]
    rw [hw]
  · intro cand hcand
    obtain ⟨i, hi, rfl⟩ := List.mem_map.mp hcand
    have hib := hsb i hi
    rw [List.getD_eq_getElem _ _ hib]
    exact List.getElem_mem hib

/-- Witness for C4: a seven-individual population under the deterministic
oracle. -/
theorem C4_tournament_selection_max_of_sample_witness :
    ((idRandom.sample () (List.replicate 7 [((0 : Nat), (5 : Nat))]).length
      TOURNAMENT_SIZE).1).length = TOURNAMENT_SIZE ∧
    ((idRandom.sample () (List.replicate 7 [((0 : Nat), (5 : Nat))]).length
      TOURNAMENT_SIZE).1).Nodup ∧
    (∀ i ∈ (idRandom.sample () (List.replicate 7 [((0 : Nat), (5 : Nat))]).length
      TOURNAMENT_SIZE).1,
      i < (List.replicate 7 [((0 : Nat), (5 : Nat))]).length) ∧
    ∃ ind : Individual,
      tournament_selection idRandom (List.replicate 7 [((0 : Nat), (5 : Nat))]) () =
        some (ind, (idRandom.sample ()
          (List.replicate 7 [((0 : Nat), (5 : Nat))]).length TOURNAMENT_SIZE).2) ∧
      ind ∈ ((idRandom.sample ()
        (List.replicate 7 [((0 : Nat), (5 : Nat))]).length TOURNAMENT_SIZE).1).map
        (fun i => (List.replicate 7 [((0 : Nat), (5 : Nat))]).getD i []) ∧
      (∀ cand ∈ ((idRandom.sample ()
        (List.replicate 7 [((0 : Nat), (5 : Nat))]).length TOURNAMENT_SIZE).1).map
        (fun i => (List.replicate 7 [((0 : Nat), (5 : Nat))]).getD i []),
        cand ∈ List.replicate 7 [((0 : Nat), (5 : Nat))]) ∧
      ∀ cand ∈ ((idRandom.sample ()
        (List.replicate 7 [((0 : Nat), (5 : Nat))]).length TOURNAMENT_SIZE).1).map
        (fun i => (List.replicate 7 [((0 : Nat), (5 : Nat))]).getD i []),
        totalError cand ≤ totalError ind :=
  C4_tournament_selection_max_of_sample idRandom_sampleOk (by decide) ()

/-- C5: in every child produced by a successful `select_and_vary`, each
case index in `cases_to_replace` carries the pair `(new_age, v)` with a
fresh `v ∈ [0, 9999]`, and every other case index carries exactly the
parent's pair, the parent being a population member. -/
theorem C5_child_case_frame {σ : Type} {R : RandomSource σ}
    (hS : SampleOk R) (hR : RandintOk R) {population : Population}
    {cases_to_replace : List Nat} {s : σ} {newpop : Population} {s₁ : σ}
    (h : select_and_vary R population cases_to_replace s =
      some (newpop, s₁)) :
    ∃ new_age : Nat, get_new_generation_age population = some new_age ∧
      ∀ child ∈ newpop, ∃ parent, parent ∈ population ∧
        child.length = parent.length ∧
        ∀ i, i < parent.length →
          (i ∈ cases_to_replace → ∃ v, v ≤ 9999 ∧
            child.get? i = some (new_age, v)) ∧
          (i ∉ cases_to_replace → child.get? i = parent.get? i) := by
  obtain ⟨parents, sA, age, hsel, hage, hout⟩ := select_and_vary_eq_some h
  obtain ⟨-, hparsel⟩ := selectLoop_spec hsel
  refine ⟨age, hage, ?_⟩
  intro child hchild
  have hchild' : child ∈
      (childrenLoop R age cases_to_replace parents sA).1 := by
    have hnp : newpop = (childrenLoop R age cases_to_replace parents sA).1 :=
      congrArg Prod.fst hout
    rw [← hnp]
    exact hchild
  obtain ⟨parent, hpmem, s₀, rfl⟩ := childrenLoop_mem hchild'
  obtain ⟨sB, sC, ht⟩ := hparsel parent hpmem
  refine ⟨parent, tournament_selection_mem hS ht,
    buildChild_length R age cases_to_replace parent s₀, ?_⟩
  intro i hi
  have hg := buildChildAux_get? hR age cases_to_replace parent
    (List.range parent.length) s₀ i (by rwa [List.length_range])
  simp only [List.get_eq_getElem, List.getElem_range] at hg
  simp only [buildChild]
  refine ⟨fun hmem => hg.1 hmem, fun hmem => ?_⟩
  have heq := hg.2 hmem
  rw [heq, List.getD_eq_getElem _ _ hi, List.get?_eq_getElem?,
    List.getElem?_eq_getElem hi]

/-- Witness for C5: a seven-individual population with two cases,
replacing case index 0. -/
theorem C5_child_case_frame_witness :
    ∃ new_age : Nat,
      get_new_generation_age (List.replicate 7 [(0, 3), (0, 4)]) =
        some new_age ∧
      ∀ child ∈ (List.replicate 7 [((1 : Nat), (0 : Nat)), (0, 4)] :
          Population),
        ∃ parent, parent ∈ List.replicate 7 [((0 : Nat), (3 : Nat)), (0, 4)] ∧
          child.length = parent.length ∧
          ∀ i, i < parent.length →
            (i ∈ [0] → ∃ v, v ≤ 9999 ∧
              child.get? i = some (new_age, v)) ∧
            (i ∉ [0] → child.get? i = parent.get? i) :=
  C5_child_case_frame idRandom_sampleOk idRandom_randintOk
    (show select_and_vary idRandom (List.replicate 7 [(0, 3), (0, 4)]) [0] () =
      some (List.replicate 7 [(1, 0), (0, 4)], ()) by decide!)

/-- C7: a successful `simualte_evolution` returns a history of length
`num_generations + 1`, whose index 0 is the freshly generated initial
population (all origin tags 0), and whose index `i + 1` is the result of
applying `simulate_one_generation` to the population at index `i`. -/
theorem C7_history_structure {σ : Type} {R : RandomSource σ}
    {num_generations pop_size num_cases : Nat} {rate : ℚ} {s : σ}
    {hist : List Population} {sf : σ}
    (hng : 0 ≤ num_generations)
    (hrun : simualte_evolution R num_generations pop_size num_cases rate s =
      some (hist, sf)) :
    hist.length = num_generations + 1 ∧
    hist.get? 0 =
      some (generate_initial_population R pop_size num_cases s).1 ∧
    (∀ ind ∈ (generate_initial_population R pop_size num_cases s).1,
      ∀ c ∈ ind, c.1 = 0) ∧
    ∀ i, i < num_generations →
      ∃ (p q : Population) (s₁ s₂ : σ),
        hist.get? i = some p ∧ hist.get? (i + 1) = some q ∧
        simulate_one_generation R p rate s₁ = some (q, s₂) := by
  obtain ⟨rest, sA, hloop, hout⟩ := simualte_evolution_eq_some hrun
  obtain ⟨rfl, rfl⟩ : hist =
      (generate_initial_population R pop_size num_cases s).1 :: rest ∧
      sf = sA :=
    ⟨congrArg Prod.fst hout, congrArg Prod.snd hout⟩
  have hrl : rest.length = num_generations := evolutionLoop_length hloop
  refine ⟨by simp [hrl], rfl, ?_, ?_⟩
  · intro ind hind
    exact ((generate_initial_population_spec R pop_size num_cases s).2
      ind hind).2
  · intro i hi
    exact evolutionLoop_chain hloop i (by omega)

/-- Witness for C7: the concrete deterministic run
`simualte_evolution(1, 7, 1, 1)`. -/
theorem C7_history_structure_witness :
    ([List.replicate 7 [((0 : Nat), (0 : Nat))],
        List.replicate 7 [(1, 0)]] : List Population).length = 1 + 1 ∧
    ([List.replicate 7 [((0 : Nat), (0 : Nat))],
        List.replicate 7 [(1, 0)]] : List Population).get? 0 =
      some (generate_initial_population idRandom 7 1 ()).1 ∧
    (∀ ind ∈ (generate_initial_population idRandom 7 1 ()).1,
      ∀ c ∈ ind, c.1 = 0) ∧
    ∀ i, i < 1 →
      ∃ (p q : Population) (s₁ s₂ : Unit),
        ([List.replicate 7 [((0 : Nat), (0 : Nat))],
          List.replicate 7 [(1, 0)]] : List Population).get? i = some p ∧
        ([List.replicate 7 [((0 : Nat), (0 : Nat))],
          List.replicate 7 [(1, 0)]] : List Population).get? (i + 1) =
          some q ∧
        simulate_one_generation idRandom p 1 s₁ = some (q, s₂) :=
  C7_history_structure (Nat.zero_le 1)
    (show simualte_evolution idRandom 1 7 1 1 () =
      some ([List.replicate 7 [(0, 0)], List.replicate 7 [(1, 0)]], ())
      by decide!)

/-- C10: `percent_cases_from_ancestors_at_specified_generation` sorts its
`interested_ancestors` argument in place: after any successful call the
post-call state of that list (the second component in this embedding) is
ascending and is a permutation of the list passed in. -/
theorem C10_ancestors_sorted_in_place (results : List Population)
    (target_generation : Nat) (interested_ancestors : List Nat)
    {out : List (List (Nat × ℚ)) × List Nat}
    (h : percent_cases_from_ancestors_at_specified_generation results
      target_generation interested_ancestors = some out) :
    out.2.Sorted (· ≤ ·) ∧ List.Perm out.2 interested_ancestors := by
  have hsnd : out.2 = List.insertionSort (· ≤ ·) interested_ancestors := by
    simp only [percent_cases_from_ancestors_at_specified_generation] at h
    split at h
    · simp at h
    · split at h
      · simp at h
      · split at h
        · simp at h
        · exact (congrArg Prod.snd (Option.some.inj h)).symm
  rw [hsnd]
  exact ⟨List.sorted_insertionSort (· ≤ ·) interested_ancestors,
    List.perm_insertionSort (· ≤ ·) interested_ancestors⟩

/-- Witness for C10: a one-generation history and the unsorted ancestor
list `[2, 1]`, which the call leaves sorted as `[1, 2]`. -/
theorem C10_ancestors_sorted_in_place_witness :
    (([[(1, 0), (2, 0)]], ([1, 2] : List Nat)).2).Sorted (· ≤ ·) ∧
      List.Perm (([[((1 : Nat), (0 : ℚ)), (2, 0)]],
        ([1, 2] : List Nat)).2) [2, 1] :=
  C10_ancestors_sorted_in_place [[[(0, 5)]]] 0 [2, 1]
    (show percent_cases_from_ancestors_at_specified_generation
      [[[(0, 5)]]] 0 [2, 1] = some ([[(1, 0), (2, 0)]], [1, 2])
      by decide!)

theorem percent_above_degenerate_eq {hist : List Population}
    {g num_cases k : Nat} {pop : Population}
    (hnc : 1 ≤ num_cases) (hg1 : 1 ≤ g)
    (hget : hist.get? g = some pop)
    (hInv : MInv num_cases k g pop) :
    percent_cases_above_ancestor hist g g =
      some (1 - (k : ℚ) / (num_cases : ℚ)) := by
  obtain ⟨hne, hlen, hmax, hcnt⟩ := hInv
  cases pop with
  | nil => exact absurd rfl hne
  | cons ind0 tl =>
  have hind0 : ind0.length = num_cases :=
    hlen ind0 (List.mem_cons_self _ _)
  have hfrac : ∀ ind ∈ ind0 :: tl,
      ((cases_from_ancestor ind g).length : ℚ) / (num_cases : ℚ) =
        (k : ℚ) / (num_cases : ℚ) := by
    intro ind hind
    have hc := hcnt ind hind
    rw [if_neg (by omega : ¬ g = 0)] at hc
    rw [hc]
  have hrange : List.range' g (g + 1 - g) = [g] := by
    have hgg : g + 1 - g = 1 := by omega
    rw [hgg]
    rfl
  have hsort : List.insertionSort (· ≤ ·) [g] = [g] := rfl
  have hguard : ¬ (num_cases = 0 ∧ ([g] : List Nat) ≠ []) := by
    intro hcon
    omega
  have hinner : percent_cases_from_ancestors_at_specified_generation
      hist g [g] =
      some ((ind0 :: tl).map (fun individual =>
        [(g, ((cases_from_ancestor individual g).length : ℚ) /
          (num_cases : ℚ))]), [g]) := by
    simp only [percent_cases_from_ancestors_at_specified_generation, hget,
      hsort, hind0, if_neg hguard]
    rfl
  have hinner2 : percent_cases_from_ancestors_at_specified_generation
      hist g [g] =
      some ((ind0 :: tl).map
        (fun _ => [(g, (k : ℚ) / (num_cases : ℚ))]), [g]) := by
    rw [hinner]
    refine congrArg (fun x => some (x, [g])) ?_
    apply List.map_congr_left
    intro ind hind
    rw [hfrac ind hind]
  have hr1 : List.range 1 = [0] := rfl
  simp only [percent_cases_above_ancestor, hrange, hinner2,
    Option.bind_eq_bind, Option.some_bind, List.map_cons, List.head?_cons,
    List.length_cons, List.length_nil, Nat.zero_add, hr1, List.map_nil,
    List.getD_cons_zero, List.map_map]
  simp only [Function.comp_def, List.getD_cons_zero, List.sum_cons,
    List.sum_nil, List.length_cons, List.length_map, add_zero]
  rw [sum_map_const_rat]
  push_cast
  have hne1 : ((tl.length : ℚ) + 1) ≠ 0 := by positivity
  rw [show ((k : ℚ) / (num_cases : ℚ) +
      (tl.length : ℚ) * ((k : ℚ) / (num_cases : ℚ))) =
      ((tl.length : ℚ) + 1) * ((k : ℚ) / (num_cases : ℚ)) by ring]
  rw [mul_div_cancel_left₀ _ hne1]

/-- Counterexample to C2: on a deterministic run with pop_size = 100,
num_cases = 10 and downsample_rate = 1/10, the degenerate call
`percent_cases_above_ancestor(history, 1, 1)` evaluates to 9/10, which is
not within ±0.03 of the downsample rate 1/10 (it approximates
1 - downsample_rate instead). -/
theorem C2_degenerate_call_counterexample :
    degenerate_call_value_pop100 = some (9 / 10) ∧
    ¬ ((9 : ℚ) / 10 - 1 / 10 ≤ 3 / 100) := by
  constructor
  · decide!
  · decide!

/-- C2 amended: under the stated preconditions, for every generation
`1 ≤ g ≤ num_generations` the degenerate call
`percent_cases_above_ancestor(history, g, g)` returns exactly
`1 - floor(rate * num_cases) / num_cases` (approximately
`1 - downsample_rate`), not `downsample_rate`. -/
theorem C2_degenerate_call_equals_one_minus_rate {σ : Type}
    {R : RandomSource σ} (hS : SampleOk R)
    {num_generations pop_size num_cases : Nat} {rate : ℚ}
    (hps : 7 ≤ pop_size) (hnc : 1 ≤ num_cases)
    (h0 : 0 ≤ rate) (h1 : rate ≤ 1) {s : σ} {hist : List Population}
    {sf : σ}
    (hrun : simualte_evolution R num_generations pop_size num_cases rate s =
      some (hist, sf)) {g : Nat} (hg1 : 1 ≤ g)
    (hgn : g ≤ num_generations) :
    percent_cases_above_ancestor hist g g =
      some (1 - ((⌊rate * (num_cases : ℚ)⌋).toNat : ℚ) /
        (num_cases : ℚ)) := by
  obtain ⟨hlen, hMinv⟩ :=
    simualte_evolution_MInv hS h0 h1 (by omega) hnc hrun
  have hg : g < hist.length := by omega
  have hget : hist.get? g = some (hist.get ⟨g, hg⟩) := List.get?_eq_get hg
  have hval := percent_above_degenerate_eq hnc hg1 hget (hMinv g hg)
  rw [hval, pyInt, if_pos (mul_nonneg h0 (Nat.cast_nonneg _))]

/-- Witness for the amended C2: the run `simualte_evolution(1, 7, 2, 1/2)`
at generation 1 returns 1 - 1/2. -/
theorem C2_degenerate_call_equals_one_minus_rate_witness :
    percent_cases_above_ancestor
      [List.replicate 7 [((0 : Nat), (0 : Nat)), (0, 0)],
        List.replicate 7 [(1, 0), (0, 0)]] 1 1 =
      some (1 - ((⌊(1 / 2 : ℚ) * (((2 : Nat) : ℚ))⌋).toNat : ℚ) /
        (((2 : Nat)) : ℚ)) :=
  C2_degenerate_call_equals_one_minus_rate idRandom_sampleOk
    (le_refl 7) (by decide) (by norm_num) (by norm_num)
    (show simualte_evolution idRandom 1 7 2 (1 / 2) () =
      some ([List.replicate 7 [(0, 0), (0, 0)],
        List.replicate 7 [(1, 0), (0, 0)]], ())
      by decide!)
    (le_refl 1) (le_refl 1)
